import Mathlib

/-!
Shallow embedding of the stage-inference engine of `app/assessment.py`
(journey_api): config loading, signal normalization, stage scoring and
per-user state update.  Python dicts are modelled as association lists
(first-occurrence semantics, which coincides with dict semantics since
dict keys are unique); real-number arithmetic (Python floats) is modelled
exactly in the rationals ℚ; arbitrary Python values arriving in a signal
payload are modelled by the inductive type `PyVal`.
-/

namespace Journey

/-- An arbitrary value that may appear in an incoming signal map.
`PyVal.none` covers both an absent key and an explicit `None` (the source
reads values with `incoming.get(qid, None)`, which conflates the two);
`float` holds the exact rational value of a finite Python float;
`other` stands for any value on which Python's `int()` raises. -/
inductive PyVal where
  | none : PyVal
  | int : Int → PyVal
  | float : ℚ → PyVal
  | str : String → PyVal
  | other : PyVal

/-- Python's `int(v)` conversion as used inside `try: iv = int(v) except: ...`:
succeeds on ints, truncates finite floats toward zero, parses integer-literal
strings, and fails (modelled as `Option.none`) on `None` and anything else. -/
def pyToInt : PyVal → Option Int
  | PyVal.none => Option.none
  | PyVal.int n => some n
  | PyVal.float q => some (q.num.tdiv (q.den : Int))
  | PyVal.str s => s.toInt?
  | PyVal.other => Option.none

/-- Association-list lookup, first occurrence wins — the read side of a
Python dict access `d.get(k, default)` (`Option.none` plays the default). -/
def alookup {β : Type} : List (String × β) → String → Option β
  | [], _ => Option.none
  | (k, v) :: rest, key => if key = k then some v else alookup rest key

/-- Python dict item assignment `d[k] = v`: if the key is present its entry
is updated in place (insertion order preserved), otherwise the pair is
appended at the end. -/
def setKey {β : Type} : List (String × β) → String → β → List (String × β)
  | [], k, v => [(k, v)]
  | (k0, v0) :: rest, k, v =>
      if k0 = k then (k0, v) :: rest else (k0, v0) :: setKey rest k v

/-- One questionnaire question after loading: `id`, display `text`, and the
per-stage weight map (`weights`). -/
structure Question where
  id : String
  text : String
  weights : List (String × ℚ)
deriving DecidableEq

/-- A loaded questionnaire config (the dict returned by
`load_assessment_config`).  `version` and `answer_scale` are optional
because the loader never checks them; the code reads them with
`cfg.get("version", "unknown")` and `cfg.get("answer_scale", [-2,-1,0,1,2])`. -/
structure Config where
  version : Option String
  stages : List String
  answer_scale : Option (List Int)
  questions : List Question
deriving DecidableEq

/-- The allowed answer scale: `cfg.get("answer_scale", [-2, -1, 0, 1, 2])`. -/
def Config.scale (cfg : Config) : List Int :=
  cfg.answer_scale.getD [-2, -1, 0, 1, 2]

/-- A per-user signal map as read by the scorer: `signals.get(qid, None)`. -/
def SignalMap : Type := String → Option Int

/-- Per-question weight read `q["weights"].get(s, 0.0)`. -/
def Question.weight (q : Question) (s : String) : ℚ :=
  (alookup q.weights s).getD 0

/-- Raw accumulated score of stage `st`: the loop
`for q in questions: if signals.get(q.id) is not None: scores[s] += w * v`
restricted to one dict key `st` (stage codes are dict keys, hence distinct). -/
def rawScore (cfg : Config) (sig : SignalMap) (st : String) : ℚ :=
  cfg.questions.foldl
    (fun acc q =>
      match sig q.id with
      | Option.none => acc
      | some v => acc + q.weight st * (v : ℚ))
    0

/-- Clamped score `max(scores[s], 0.0)`, one component of the numpy vector. -/
def clampedScore (cfg : Config) (sig : SignalMap) (st : String) : ℚ :=
  max (rawScore cfg sig st) 0

/-- The numpy vector sum `vec.sum()` over the declared stages. -/
def totalClamped (cfg : Config) (sig : SignalMap) : ℚ :=
  (cfg.stages.map (clampedScore cfg sig)).sum

/-- The probability assigned to stage `st`: the vector is divided by its sum
when the sum is positive and left unchanged otherwise (`vec / vec.sum()`). -/
def prob (cfg : Config) (sig : SignalMap) (st : String) : ℚ :=
  if 0 < totalClamped cfg sig then clampedScore cfg sig st / totalClamped cfg sig
  else clampedScore cfg sig st

/-- Coverage: answered-question count over `max(len(questions), 1)`. -/
def coverage (cfg : Config) (sig : SignalMap) : ℚ :=
  ((cfg.questions.filter (fun q => (sig q.id).isSome)).length : ℚ) /
    ((max cfg.questions.length 1 : Nat) : ℚ)

/-- Dominance `max(probs.values()) if probs else 0.0`: the probability dict
is keyed by the declared stages, so it is empty exactly when `stages` is. -/
def dominance (cfg : Config) (sig : SignalMap) : ℚ :=
  match cfg.stages with
  | [] => 0
  | s :: rest => (rest.map (prob cfg sig)).foldl max (prob cfg sig s)

/-- The blended confidence score `0.6 * dominance + 0.4 * coverage`. -/
def conf_score (cfg : Config) (sig : SignalMap) : ℚ :=
  (6 / 10) * dominance cfg sig + (4 / 10) * coverage cfg sig

/-- The confidence bucket chain
`"high" if score >= 0.75 elif score >= 0.45 "medium" else "low"`. -/
def conf_label (score : ℚ) : String :=
  if (75 : ℚ) / 100 ≤ score then "high"
  else if (45 : ℚ) / 100 ≤ score then "medium"
  else "low"

/-- The 4-tuple returned by `assess_stage cfg signals`. -/
structure AssessResult where
  probs : List (String × ℚ)
  conf : String
  scores : List (String × ℚ)
  coverage : ℚ
deriving DecidableEq

/-- The scorer `assess_stage`: probability and raw-score dicts keyed by the
declared stages, the confidence label, and the coverage fraction. -/
def assess_stage (cfg : Config) (sig : SignalMap) : AssessResult :=
  { probs := cfg.stages.map (fun s => (s, prob cfg sig s)),
    conf := conf_label (conf_score cfg sig),
    scores := cfg.stages.map (fun s => (s, rawScore cfg sig s)),
    coverage := coverage cfg sig }

/-- The value the normalizer / state updater would store for key `k`:
apply `int(...)` to the incoming value and keep the result only when it lies
on the answer scale.  (The source's separate `if v is None: ...` branch is
absorbed here because `int(None)` also fails.) -/
def writeVal (cfg : Config) (inc : String → PyVal) (k : String) : Option Int :=
  match pyToInt (inc k) with
  | Option.none => Option.none
  | some iv => if iv ∈ cfg.scale then some iv else Option.none

/-- The normalizer `normalize_signals cfg incoming`: one pass over the
declared questions building the output dict `out`, with `out[qid]` set to the
validated integer or `None`. -/
def normalize_signals (cfg : Config) (inc : String → PyVal) :
    List (String × Option Int) :=
  cfg.questions.foldl (fun out q => setKey out q.id (writeVal cfg inc q.id)) []

/-- The error raised when the config definition lacks a required structural
field (the source raises it through `assert`; the spec names it
`ConfigError`). -/
inductive ConfigError where
  | mk : ConfigError
deriving DecidableEq

/-- One entry of the raw `questions` array before loading: each of the three
required fields may be missing.  The embedding takes the raw definition as an
already-parsed, well-typed JSON object (the claims under scrutiny concern the
presence checks, not JSON syntax). -/
structure RawQuestion where
  id : Option String
  text : Option String
  weights : Option (List (String × ℚ))
deriving DecidableEq

/-- The raw top-level config document; any of the four keys may be absent. -/
structure RawConfig where
  version : Option String
  stages : Option (List String)
  answer_scale : Option (List Int)
  questions : Option (List RawQuestion)
deriving DecidableEq

/-- Load a single question: assert `id`, `text`, `weights` are present and
rebuild its weight dict as `{s: float(weights.get(s, 0)) for s in stages}`. -/
def loadQuestion (stages : List String) (rq : RawQuestion) :
    Except ConfigError Question :=
  match rq.id, rq.text, rq.weights with
  | some i, some t, some w =>
      Except.ok { id := i, text := t,
                  weights := stages.map (fun s => (s, (alookup w s).getD 0)) }
  | _, _, _ => Except.error ConfigError.mk

/-- Load the question list in order, stopping at the first bad question
(exactly as the Python `for` loop of asserts does). -/
def loadQuestions (stages : List String) :
    List RawQuestion → Except ConfigError (List Question)
  | [] => Except.ok []
  | rq :: rest =>
      match loadQuestion stages rq with
      | Except.error e => Except.error e
      | Except.ok q =>
          match loadQuestions stages rest with
          | Except.error e => Except.error e
          | Except.ok qs => Except.ok (q :: qs)

/-- The loader `load_assessment_config`: assert `stages` and `questions` are
present, then validate and rebuild every question. -/
def load_assessment_config (raw : RawConfig) : Except ConfigError Config :=
  match raw.stages, raw.questions with
  | some stages, some rqs =>
      match loadQuestions stages rqs with
      | Except.error e => Except.error e
      | Except.ok qs =>
          Except.ok { version := raw.version, stages := stages,
                      answer_scale := raw.answer_scale, questions := qs }
  | _, _ => Except.error ConfigError.mk

/-- Models `config_hash`: the source serializes the loaded config with
`json.dumps(cfg, sort_keys=True)` and keeps the first 12 hex characters of
its SHA-256.  The external digest (`hashlib`, byte-level) is modelled
abstractly as a deterministic function of the config content; no theorem in
this file depends on the digest's concrete value. -/
def config_hash (cfg : Config) : String :=
  toString cfg.version ++ "|" ++ toString cfg.stages ++ "|" ++
    toString cfg.answer_scale ++ "|" ++
    toString (cfg.questions.map (fun q => (q.id, q.text, q.weights)))

/-- The snapshot appended to a user's history on every state update. -/
structure Snapshot where
  timestamp : String
  config_version : String
  config_hash : String
  coverage : ℚ
  stage_probs : List (String × ℚ)
  stage_scores : List (String × ℚ)
deriving DecidableEq

/-- The per-user state blob `{"signals": {...}, "history": [...]}`. -/
structure UserState where
  signals : List (String × Int)
  history : List Snapshot
deriving DecidableEq

/-- The merge loop of `update_user_state`: for each declared question whose
incoming value survives `int()` conversion and the scale check, overwrite the
user's stored signal for that question. -/
def writeLoop (cfg : Config) (inc : String → PyVal)
    (l : List (String × Int)) : List (String × Int) :=
  cfg.questions.foldl
    (fun acc q =>
      match writeVal cfg inc q.id with
      | some iv => setKey acc q.id iv
      | Option.none => acc)
    l

/-- The state updater `update_user_state cfg user_state incoming`.  A missing
(`None`) state is replaced by the empty state; the wall-clock timestamp read
(`datetime.utcnow().isoformat()`) is passed in as the parameter `now`. -/
def update_user_state (cfg : Config) (ust : Option UserState)
    (inc : String → PyVal) (now : String) : UserState :=
  let st := ust.getD { signals := [], history := [] }
  let sigs := writeLoop cfg inc st.signals
  let r := assess_stage cfg (fun k => alookup sigs k)
  { signals := sigs,
    history := st.history ++ [{
      timestamp := now,
      config_version := cfg.version.getD "unknown",
      config_hash := config_hash cfg,
      coverage := r.coverage,
      stage_probs := r.probs,
      stage_scores := r.scores }] }

/-- Helper for transcribing the default questionnaire: a question with its
weights in the declared stage order `FS, HM, IC, SA`. -/
def mkQ (i t : String) (fs hm ic sa : ℚ) : Question :=
  { id := i, text := t,
    weights := [("FS", fs), ("HM", hm), ("IC", ic), ("SA", sa)] }

/-- The default questionnaire `ASSESSMENT_CONFIG_JSON` of the source, in its
loaded form. -/
def defaultConfig : Config :=
  { version := some "spec-v0.5-default",
    stages := ["FS", "HM", "IC", "SA"],
    answer_scale := some [-2, -1, 0, 1, 2],
    questions :=
      [ mkQ "Q1" "I feel excited about the possibilities of living abroad" 1 1 0 1,
        mkQ "Q2" "I feel shut out and excluded" 1 0 1 0,
        mkQ "Q3" "I feel guilty leaving my family and friends behind" 1 0 1 0,
        mkQ "Q4" "I feel my social relationships are superficial" 0 0 1 0,
        mkQ "Q5" "I feel lonely and/or isolated" 0 0 1 0,
        mkQ "Q6" "I feel I can maintain my cultural identity and embrace the new culture" 0 1 0 1,
        mkQ "Q7" "I feel I understand the values of the country I am assigned to" 1 0 0 1,
        mkQ "Q8" "I feel sad" 1 0 1 0,
        mkQ "Q9" "I feel disappointed in myself" 1 0 1 0,
        mkQ "Q10" "I feel discouraged in my new assignment/country" 1 0 1 0,
        mkQ "Q11" "I feel I am integrated and belong" 0 0 0 1,
        mkQ "Q12" "I feel that I (and/or) my family is thriving" 0 1 0 1,
        mkQ "Q13" "I fear that I am inadequate to succeed" 0 0 1 0,
        mkQ "Q14" "I wish I was better prepared for living abroad" 1 0 1 0,
        mkQ "Q15" "I feel like the company will leverage my/partner\x27s skills upon returning home" 0 0 0 1,
        mkQ "Q16" "I feel like issues at home are impacting my work performance" 0 0 1 0,
        mkQ "Q17" "I feel that my company cares about my/our well-being" 1 1 0 1,
        mkQ "Q18" "I feel like I am the best \"me\" I can be" 1 0 0 1,
        mkQ "Q19" "I have been provided, throughout the assignment, with the tools and resources to adapt in the new country" 1 0 0 1,
        mkQ "Q20" "I am open to using technology to help me adapt abroad" 1 1 1 1 ] }

/-- The default questionnaire as a raw definition document (every field
present, weight dicts complete). -/
def defaultRaw : RawConfig :=
  { version := defaultConfig.version,
    stages := some defaultConfig.stages,
    answer_scale := defaultConfig.answer_scale,
    questions := some (defaultConfig.questions.map
      (fun q => { id := some q.id, text := some q.text,
                  weights := some q.weights })) }

/-- Wrap an already-normalized signal map as an incoming payload: the caller
of `update_user_state` passes it the output of the normalizer, whose non-null
entries are plain integers. -/
def pyOfSignals (nsig : SignalMap) : String → PyVal :=
  fun k =>
    match nsig k with
    | some v => PyVal.int v
    | Option.none => PyVal.none

/-- Modelled from the spec: the claim's "converts losslessly to an integer".
A value converts losslessly when it denotes an integer exactly: an int
itself, an integral float, or a string parsing as an integer literal;
`None` and non-numeric values do not convert at all. -/
def losslessInt : PyVal → Option Int
  | PyVal.none => Option.none
  | PyVal.int n => some n
  | PyVal.float q => if q.den = 1 then some q.num else Option.none
  | PyVal.str s => s.toInt?
  | PyVal.other => Option.none

/-- A one-question config used as a concrete input. -/
def cfgC3 : Config :=
  { version := Option.none,
    stages := ["S1"],
    answer_scale := some [-2, -1, 0, 1, 2],
    questions := [{ id := "Q1", text := "t", weights := [("S1", 1)] }] }

/-- The incoming payload `{"Q1": 1.5}` (a non-integral float, written as the
normalized rational 3/2). -/
def incC3 : String → PyVal :=
  fun k => if k = "Q1" then PyVal.float (mkRat 3 2) else PyVal.none

/-! Helper lemmas about the dict model. -/

theorem alookup_setKey_self {β : Type} (l : List (String × β)) (k : String)
    (v : β) : alookup (setKey l k v) k = some v := by
  induction l with
  | nil => simp [setKey, alookup]
  | cons p rest ih =>
      obtain ⟨k0, v0⟩ := p
      by_cases h : k0 = k
      · subst h; simp [setKey, alookup]
      · rw [setKey, if_neg h, alookup, if_neg (fun hk => h hk.symm)]
        exact ih

theorem alookup_setKey_ne {β : Type} (l : List (String × β)) (k k' : String)
    (v : β) (h : k' ≠ k) : alookup (setKey l k v) k' = alookup l k' := by
  induction l with
  | nil => simp [setKey, alookup, if_neg h]
  | cons p rest ih =>
      obtain ⟨k0, v0⟩ := p
      by_cases h0 : k0 = k
      · subst h0
        rw [setKey, if_pos rfl, alookup, if_neg h, alookup, if_neg h]
      · rw [setKey, if_neg h0, alookup, alookup]
        by_cases h1 : k' = k0
        · simp [h1]
        · rw [if_neg h1, if_neg h1]; exact ih

theorem setKey_self {β : Type} (l : List (String × β)) (k : String) (v : β)
    (h : alookup l k = some v) : setKey l k v = l := by
  induction l with
  | nil => simp [alookup] at h
  | cons p rest ih =>
      obtain ⟨k0, v0⟩ := p
      by_cases h0 : k0 = k
      · subst h0
        rw [alookup, if_pos rfl] at h
        obtain rfl : v0 = v := Option.some.inj h
        rw [setKey, if_pos rfl]
      · rw [alookup, if_neg (fun hk => h0 hk.symm)] at h
        rw [setKey, if_neg h0, ih h]

theorem mem_setKey {β : Type} {l : List (String × β)} {k : String} {v : β}
    {p : String × β} (hp : p ∈ setKey l k v) : p = (k, v) ∨ p ∈ l := by
  induction l with
  | nil => simpa [setKey] using hp
  | cons q rest ih =>
      obtain ⟨k0, v0⟩ := q
      by_cases h0 : k0 = k
      · subst h0
        rw [setKey, if_pos rfl] at hp
        rcases List.mem_cons.mp hp with h | h
        · exact Or.inl h
        · exact Or.inr (List.mem_cons_of_mem _ h)
      · rw [setKey, if_neg h0] at hp
        rcases List.mem_cons.mp hp with h | h
        · exact Or.inr (h ▸ List.mem_cons_self _ _)
        · rcases ih h with h' | h'
          · exact Or.inl h'
          · exact Or.inr (List.mem_cons_of_mem _ h')

theorem keys_setKey_not_mem {β : Type} (l : List (String × β)) (k : String)
    (v : β) (h : k ∉ l.map Prod.fst) :
    (setKey l k v).map Prod.fst = l.map Prod.fst ++ [k] := by
  induction l with
  | nil => simp [setKey]
  | cons p rest ih =>
      obtain ⟨k0, v0⟩ := p
      simp only [List.map_cons, List.mem_cons] at h
      push_neg at h
      rw [setKey, if_neg (fun hk => h.1 hk.symm)]
      simp only [List.map_cons, List.cons_append, List.cons.injEq, true_and]
      exact ih h.2

theorem foldl_add_map {α : Type} (f : α → ℚ) (l : List α) (a : ℚ) :
    l.foldl (fun acc x => acc + f x) a = a + (l.map f).sum := by
  induction l generalizing a with
  | nil => simp
  | cons x rest ih => simp [ih, add_assoc]

theorem sum_map_div (l : List ℚ) (c : ℚ) :
    (l.map (fun x => x / c)).sum = l.sum / c := by
  induction l with
  | nil => simp
  | cons x rest ih => simp [ih, add_div]

theorem foldl_eq_self {α β : Type} (σ : β → α → β) (l : β) (xs : List α)
    (h : ∀ x ∈ xs, σ l x = l) : xs.foldl σ l = l := by
  induction xs with
  | nil => rfl
  | cons x rest ih =>
      rw [List.foldl_cons, h x (List.mem_cons_self _ _)]
      exact ih (fun y hy => h y (List.mem_cons_of_mem _ hy))

theorem le_foldl_max (l : List ℚ) (a : ℚ) : a ≤ l.foldl max a := by
  induction l generalizing a with
  | nil => exact le_refl a
  | cons x rest ih => exact le_trans (le_max_left a x) (ih (max a x))

theorem le_foldl_max_of_mem {l : List ℚ} {x : ℚ} (hx : x ∈ l) (a : ℚ) :
    x ≤ l.foldl max a := by
  induction l generalizing a with
  | nil => simp at hx
  | cons y rest ih =>
      rcases List.mem_cons.mp hx with h | h
      · subst h; exact le_trans (le_max_right a x) (le_foldl_max rest _)
      · exact ih h _

theorem foldl_max_mem (l : List ℚ) (a : ℚ) :
    l.foldl max a = a ∨ l.foldl max a ∈ l := by
  induction l generalizing a with
  | nil => exact Or.inl rfl
  | cons x rest ih =>
      rw [List.foldl_cons]
      rcases ih (max a x) with h | h
      · rcases max_cases a x with ⟨hm, _⟩ | ⟨hm, _⟩
        · exact Or.inl (by rw [h, hm])
        · refine Or.inr ?_
          rw [h, hm]
          exact List.mem_cons_self x rest
      · exact Or.inr (List.mem_cons_of_mem _ h)

/-! Characterizations of the folds used by the normalizer and state updater. -/

theorem alookup_writeFold (cfg : Config) (inc : String → PyVal)
    (qs : List Question) (l : List (String × Int)) (k : String) :
    alookup (qs.foldl (fun acc q =>
        match writeVal cfg inc q.id with
        | some iv => setKey acc q.id iv
        | Option.none => acc) l) k =
      if (∃ q ∈ qs, q.id = k) ∧ (writeVal cfg inc k).isSome
      then writeVal cfg inc k
      else alookup l k := by
  induction qs generalizing l with
  | nil => simp
  | cons q rest ih =>
      rw [List.foldl_cons, ih]
      by_cases hr : (∃ q' ∈ rest, q'.id = k) ∧ (writeVal cfg inc k).isSome
      · rw [if_pos hr]
        obtain ⟨⟨q', hq', hid⟩, hs⟩ := hr
        rw [if_pos ⟨⟨q', List.mem_cons_of_mem _ hq', hid⟩, hs⟩]
      · rw [if_neg hr]
        by_cases hq : q.id = k
        · subst hq
          cases hw : writeVal cfg inc q.id with
          | none =>
              simp only [hw]
              rw [if_neg (fun hc => by simp at hc)]
          | some iv =>
              simp only [hw]
              rw [alookup_setKey_self,
                  if_pos ⟨⟨q, List.mem_cons_self _ _, rfl⟩, rfl⟩]
        · have houter : ¬ ((∃ q' ∈ q :: rest, q'.id = k) ∧
              (writeVal cfg inc k).isSome) := by
            rintro ⟨⟨q', hq', hid⟩, hs⟩
            rcases List.mem_cons.mp hq' with rfl | hmem
            · exact hq hid
            · exact hr ⟨⟨q', hmem, hid⟩, hs⟩
          rw [if_neg houter]
          cases hw : writeVal cfg inc q.id with
          | none => simp only [hw]
          | some iv =>
              simp only [hw]
              exact alookup_setKey_ne l q.id k iv (fun hk => hq hk.symm)

theorem alookup_normFold (cfg : Config) (inc : String → PyVal)
    (qs : List Question) (l : List (String × Option Int)) (k : String) :
    alookup (qs.foldl (fun out q => setKey out q.id (writeVal cfg inc q.id)) l)
        k =
      if ∃ q ∈ qs, q.id = k then some (writeVal cfg inc k) else alookup l k := by
  induction qs generalizing l with
  | nil => simp
  | cons q rest ih =>
      rw [List.foldl_cons, ih]
      by_cases hr : ∃ q' ∈ rest, q'.id = k
      · rw [if_pos hr]
        obtain ⟨q', hq', hid⟩ := hr
        rw [if_pos ⟨q', List.mem_cons_of_mem _ hq', hid⟩]
      · rw [if_neg hr]
        by_cases hq : q.id = k
        · subst hq
          rw [alookup_setKey_self, if_pos ⟨q, List.mem_cons_self _ _, rfl⟩]
        · have houter : ¬ ∃ q' ∈ q :: rest, q'.id = k := by
            rintro ⟨q', hq', hid⟩
            rcases List.mem_cons.mp hq' with rfl | hmem
            · exact hq hid
            · exact hr ⟨q', hmem, hid⟩
          rw [if_neg houter]
          exact alookup_setKey_ne l q.id k _ (fun hk => hq hk.symm)

theorem keys_normFold (cfg : Config) (inc : String → PyVal)
    (qs : List Question) (l : List (String × Option Int))
    (h : (l.map Prod.fst ++ qs.map Question.id).Nodup) :
    (qs.foldl (fun out q => setKey out q.id (writeVal cfg inc q.id)) l).map
        Prod.fst =
      l.map Prod.fst ++ qs.map Question.id := by
  induction qs generalizing l with
  | nil => simp
  | cons q rest ih =>
      rw [List.foldl_cons]
      have hnotmem : q.id ∉ l.map Prod.fst := by
        rw [List.nodup_append] at h
        exact fun hmem =>
          h.2.2 hmem (by simp)
      have hkeys := keys_setKey_not_mem l q.id (writeVal cfg inc q.id) hnotmem
      have h' : ((setKey l q.id (writeVal cfg inc q.id)).map Prod.fst ++
          rest.map Question.id).Nodup := by
        rw [hkeys, ← List.append_cons]
        simpa using h
      rw [ih _ h', hkeys, ← List.append_cons]
      simp

theorem rawScore_eq_sum (cfg : Config) (sig : SignalMap) (st : String) :
    rawScore cfg sig st =
      (cfg.questions.map (fun q =>
        match sig q.id with
        | Option.none => 0
        | some v => q.weight st * (v : ℚ))).sum := by
  rw [rawScore]
  have hstep : (fun (acc : ℚ) (q : Question) =>
      match sig q.id with
      | Option.none => acc
      | some v => acc + q.weight st * (v : ℚ)) =
      (fun (acc : ℚ) (q : Question) => acc + (match sig q.id with
      | Option.none => 0
      | some v => q.weight st * (v : ℚ))) := by
    funext acc q
    cases sig q.id <;> simp
  rw [hstep, foldl_add_map, zero_add]

/-! Basic facts about the clamped scores. -/

theorem clampedScore_nonneg (cfg : Config) (sig : SignalMap) (st : String) :
    0 ≤ clampedScore cfg sig st :=
  le_max_right _ _

theorem totalClamped_nonneg (cfg : Config) (sig : SignalMap) :
    0 ≤ totalClamped cfg sig := by
  refine List.sum_nonneg ?_
  intro x hx
  obtain ⟨st, _, rfl⟩ := List.mem_map.mp hx
  exact clampedScore_nonneg cfg sig st

theorem clampedScore_eq_zero (cfg : Config) (sig : SignalMap)
    (h : ¬ 0 < totalClamped cfg sig) {st : String} (hst : st ∈ cfg.stages) :
    clampedScore cfg sig st = 0 := by
  have htot : (cfg.stages.map (clampedScore cfg sig)).sum = 0 :=
    le_antisymm (not_lt.mp h) (totalClamped_nonneg cfg sig)
  refine List.all_zero_of_le_zero_le_of_sum_eq_zero ?_ htot
    (List.mem_map_of_mem _ hst)
  intro x hx
  obtain ⟨st', _, rfl⟩ := List.mem_map.mp hx
  exact clampedScore_nonneg cfg sig st'

theorem clampedScore_le_total (cfg : Config) (sig : SignalMap) {st : String}
    (hst : st ∈ cfg.stages) : clampedScore cfg sig st ≤ totalClamped cfg sig := by
  refine List.single_le_sum ?_ _ (List.mem_map_of_mem _ hst)
  intro x hx
  obtain ⟨st', _, rfl⟩ := List.mem_map.mp hx
  exact clampedScore_nonneg cfg sig st'

/-- Dissection of the confidence bucket chain by its two thresholds. -/
theorem conf_label_cases (x : ℚ) :
    (conf_label x = "high" ↔ (75 : ℚ) / 100 ≤ x) ∧
    (conf_label x = "medium" ↔ (45 : ℚ) / 100 ≤ x ∧ x < (75 : ℚ) / 100) ∧
    (conf_label x = "low" ↔ x < (45 : ℚ) / 100) := by
  unfold conf_label
  by_cases h1 : (75 : ℚ) / 100 ≤ x
  · rw [if_pos h1]
    refine ⟨⟨fun _ => h1, fun _ => rfl⟩, ?_, ?_⟩
    · exact ⟨fun h => absurd h (by decide), fun h => absurd h1 (not_le.mpr h.2)⟩
    · exact ⟨fun h => absurd h (by decide),
        fun h => absurd h1 (not_le.mpr (lt_trans h (by norm_num)))⟩
  · rw [if_neg h1]
    by_cases h2 : (45 : ℚ) / 100 ≤ x
    · rw [if_pos h2]
      refine ⟨?_, ⟨fun _ => ⟨h2, not_le.mp h1⟩, fun _ => rfl⟩, ?_⟩
      · exact ⟨fun h => absurd h (by decide), fun h => absurd h h1⟩
      · exact ⟨fun h => absurd h (by decide),
          fun h => absurd h2 (not_le.mpr h)⟩
    · rw [if_neg h2]
      refine ⟨?_, ?_, ⟨fun _ => not_le.mp h2, fun _ => rfl⟩⟩
      · exact ⟨fun h => absurd h (by decide), fun h => absurd h h1⟩
      · exact ⟨fun h => absurd h (by decide), fun h => absurd h.1 h2⟩

/-! Claim theorems for the scoring algorithm. -/

/-- C1: for every config (stage codes are dict keys, hence distinct) and
every signal map, each declared stage's raw score equals the sum, over the
declared questions whose signal value is non-null, of `weight(q, s) * v`;
each probability equals the raw score clamped at 0 divided by the sum of
clamped scores when that sum is positive, and equals 0 otherwise. -/
theorem claim_c1 (cfg : Config) (sig : SignalMap) (_hs : cfg.stages.Nodup) :
    (∀ st ∈ cfg.stages,
        rawScore cfg sig st =
          (cfg.questions.map (fun q =>
            match sig q.id with
            | Option.none => 0
            | some v => q.weight st * (v : ℚ))).sum) ∧
    (∀ st ∈ cfg.stages,
        prob cfg sig st =
          if 0 < totalClamped cfg sig
          then max (rawScore cfg sig st) 0 / totalClamped cfg sig
          else 0) := by
  refine ⟨fun st _ => rawScore_eq_sum cfg sig st, fun st hst => ?_⟩
  by_cases hpos : 0 < totalClamped cfg sig
  · rw [prob, if_pos hpos, if_pos hpos, clampedScore]
  · rw [prob, if_neg hpos, if_neg hpos]
    exact clampedScore_eq_zero cfg sig hpos hst

/-- Witness for C1 at the default config and the worked example of the spec
(only `Q11` answered, with value 2). -/
theorem claim_c1_witness :
    defaultConfig.stages.Nodup ∧
    ((∀ st ∈ defaultConfig.stages,
        rawScore defaultConfig
            (fun k => if k = "Q11" then some 2 else Option.none) st =
          (defaultConfig.questions.map (fun q =>
            match (if q.id = "Q11" then some 2 else Option.none : Option Int) with
            | Option.none => 0
            | some v => q.weight st * (v : ℚ))).sum) ∧
    (∀ st ∈ defaultConfig.stages,
        prob defaultConfig
            (fun k => if k = "Q11" then some 2 else Option.none) st =
          if 0 < totalClamped defaultConfig
              (fun k => if k = "Q11" then some 2 else Option.none)
          then max (rawScore defaultConfig
              (fun k => if k = "Q11" then some 2 else Option.none) st) 0 /
            totalClamped defaultConfig
              (fun k => if k = "Q11" then some 2 else Option.none)
          else 0)) :=
  ⟨by decide,
    claim_c1 defaultConfig (fun k => if k = "Q11" then some 2 else Option.none)
      (by decide)⟩

/-- C6: the stage probabilities returned by `assess_stage` sum to exactly 0
(when no stage has positive clamped score) or exactly 1, and each lies in
the interval [0, 1]. -/
theorem claim_c6 (cfg : Config) (sig : SignalMap) (_hs : cfg.stages.Nodup) :
    (((assess_stage cfg sig).probs.map Prod.snd).sum = 0 ∨
      ((assess_stage cfg sig).probs.map Prod.snd).sum = 1) ∧
    ∀ p ∈ (assess_stage cfg sig).probs, 0 ≤ p.2 ∧ p.2 ≤ 1 := by
  have hmap : (assess_stage cfg sig).probs.map Prod.snd =
      cfg.stages.map (prob cfg sig) := by
    rw [assess_stage]
    rw [List.map_map]
    rfl
  constructor
  · by_cases hpos : 0 < totalClamped cfg sig
    · refine Or.inr ?_
      rw [hmap]
      have hfun : cfg.stages.map (prob cfg sig) =
          cfg.stages.map (fun st => clampedScore cfg sig st / totalClamped cfg sig) := by
        refine List.map_congr_left (fun st _ => ?_)
        rw [prob, if_pos hpos]
      rw [hfun]
      have hdiv := sum_map_div (cfg.stages.map (clampedScore cfg sig))
        (totalClamped cfg sig)
      rw [List.map_map] at hdiv
      have : (cfg.stages.map
          (fun st => clampedScore cfg sig st / totalClamped cfg sig)) =
          cfg.stages.map
            ((fun x => x / totalClamped cfg sig) ∘ clampedScore cfg sig) := rfl
      rw [this, hdiv]
      exact div_self (ne_of_gt hpos)
    · refine Or.inl ?_
      rw [hmap]
      refine List.sum_eq_zero (fun x hx => ?_)
      obtain ⟨st, hst, rfl⟩ := List.mem_map.mp hx
      rw [prob, if_neg hpos]
      exact clampedScore_eq_zero cfg sig hpos hst
  · intro p hp
    obtain ⟨st, hst, rfl⟩ := List.mem_map.mp hp
    simp only
    by_cases hpos : 0 < totalClamped cfg sig
    · rw [prob, if_pos hpos]
      constructor
      · exact div_nonneg (clampedScore_nonneg cfg sig st) (le_of_lt hpos)
      · rw [div_le_one hpos]
        exact clampedScore_le_total cfg sig hst
    · rw [prob, if_neg hpos, clampedScore_eq_zero cfg sig hpos hst]
      exact ⟨le_refl 0, zero_le_one⟩

/-- Witness for C6 at the default config with only `Q11` answered. -/
theorem claim_c6_witness :
    defaultConfig.stages.Nodup ∧
    ((((assess_stage defaultConfig
          (fun k => if k = "Q11" then some 2 else Option.none)).probs.map
            Prod.snd).sum = 0 ∨
      (((assess_stage defaultConfig
          (fun k => if k = "Q11" then some 2 else Option.none)).probs.map
            Prod.snd).sum = 1)) ∧
    ∀ p ∈ (assess_stage defaultConfig
        (fun k => if k = "Q11" then some 2 else Option.none)).probs,
      0 ≤ p.2 ∧ p.2 ≤ 1) :=
  ⟨by decide,
    claim_c6 defaultConfig (fun k => if k = "Q11" then some 2 else Option.none)
      (by decide)⟩

/-- C2: the confidence score blends dominance and coverage with weights
0.6 and 0.4, dominance is the maximum stage probability (0 when there are no
stages, hence no probabilities), and the returned label is "high" exactly on
scores ≥ 0.75, "medium" exactly on scores in [0.45, 0.75), and "low" exactly
on scores < 0.45 (so 0.75 is "high" and 0.45 is "medium"). -/
theorem claim_c2 (cfg : Config) (sig : SignalMap) (_hs : cfg.stages.Nodup) :
    conf_score cfg sig =
        (6 : ℚ) / 10 * dominance cfg sig + (4 : ℚ) / 10 * coverage cfg sig ∧
    (cfg.stages = [] → dominance cfg sig = 0) ∧
    (cfg.stages ≠ [] →
        dominance cfg sig ∈ cfg.stages.map (prob cfg sig) ∧
        ∀ st ∈ cfg.stages, prob cfg sig st ≤ dominance cfg sig) ∧
    ((assess_stage cfg sig).conf = "high" ↔
        (75 : ℚ) / 100 ≤ conf_score cfg sig) ∧
    ((assess_stage cfg sig).conf = "medium" ↔
        (45 : ℚ) / 100 ≤ conf_score cfg sig ∧
          conf_score cfg sig < (75 : ℚ) / 100) ∧
    ((assess_stage cfg sig).conf = "low" ↔
        conf_score cfg sig < (45 : ℚ) / 100) := by
  have hconf : (assess_stage cfg sig).conf = conf_label (conf_score cfg sig) :=
    rfl
  obtain ⟨hh, hm, hl⟩ := conf_label_cases (conf_score cfg sig)
  refine ⟨rfl, ?_, ?_, by rw [hconf]; exact hh, by rw [hconf]; exact hm,
    by rw [hconf]; exact hl⟩
  · intro hnil
    unfold dominance
    rw [hnil]
  · intro hne
    cases hstages : cfg.stages with
    | nil => exact absurd hstages hne
    | cons s rest =>
        have hdom : dominance cfg sig =
            (rest.map (prob cfg sig)).foldl max (prob cfg sig s) := by
          unfold dominance
          rw [hstages]
        constructor
        · rw [List.map_cons, hdom]
          rcases foldl_max_mem (rest.map (prob cfg sig)) (prob cfg sig s)
            with h | h
          · rw [h]
            exact List.mem_cons_self _ _
          · exact List.mem_cons_of_mem _ h
        · intro st hst
          rw [hdom]
          rcases List.mem_cons.mp hst with rfl | hmem
          · exact le_foldl_max _ _
          · exact le_foldl_max_of_mem (List.mem_map_of_mem _ hmem) _

/-- Witness for C2 at the default config with only `Q11` answered (the
spec's worked example: score 0.62, label "medium"). -/
theorem claim_c2_witness :
    defaultConfig.stages.Nodup ∧
    (conf_score defaultConfig (fun k => if k = "Q11" then some 2 else Option.none) =
        (6 : ℚ) / 10 *
            dominance defaultConfig
              (fun k => if k = "Q11" then some 2 else Option.none) +
          (4 : ℚ) / 10 *
            coverage defaultConfig
              (fun k => if k = "Q11" then some 2 else Option.none) ∧
    (defaultConfig.stages = [] →
        dominance defaultConfig
          (fun k => if k = "Q11" then some 2 else Option.none) = 0) ∧
    (defaultConfig.stages ≠ [] →
        dominance defaultConfig
            (fun k => if k = "Q11" then some 2 else Option.none) ∈
          defaultConfig.stages.map
            (prob defaultConfig
              (fun k => if k = "Q11" then some 2 else Option.none)) ∧
        ∀ st ∈ defaultConfig.stages,
          prob defaultConfig
              (fun k => if k = "Q11" then some 2 else Option.none) st ≤
            dominance defaultConfig
              (fun k => if k = "Q11" then some 2 else Option.none)) ∧
    ((assess_stage defaultConfig
        (fun k => if k = "Q11" then some 2 else Option.none)).conf = "high" ↔
        (75 : ℚ) / 100 ≤
          conf_score defaultConfig
            (fun k => if k = "Q11" then some 2 else Option.none)) ∧
    ((assess_stage defaultConfig
        (fun k => if k = "Q11" then some 2 else Option.none)).conf = "medium" ↔
        (45 : ℚ) / 100 ≤
            conf_score defaultConfig
              (fun k => if k = "Q11" then some 2 else Option.none) ∧
          conf_score defaultConfig
              (fun k => if k = "Q11" then some 2 else Option.none) <
            (75 : ℚ) / 100) ∧
    ((assess_stage defaultConfig
        (fun k => if k = "Q11" then some 2 else Option.none)).conf = "low" ↔
        conf_score defaultConfig
            (fun k => if k = "Q11" then some 2 else Option.none) <
          (45 : ℚ) / 100)) :=
  ⟨by decide,
    claim_c2 defaultConfig (fun k => if k = "Q11" then some 2 else Option.none)
      (by decide)⟩

/-- Monotonicity of filtering under pointwise implication of predicates. -/
theorem length_filter_mono {α : Type} (l : List α) (p q : α → Bool)
    (h : ∀ x ∈ l, p x = true → q x = true) :
    (l.filter p).length ≤ (l.filter q).length := by
  induction l with
  | nil => exact le_refl 0
  | cons x rest ih =>
      have ih' := ih (fun y hy => h y (List.mem_cons_of_mem _ hy))
      by_cases hp : p x = true
      · rw [List.filter_cons_of_pos hp,
          List.filter_cons_of_pos (h x (List.mem_cons_self _ _) hp)]
        simpa using ih'
      · rw [List.filter_cons_of_neg (by simpa using hp)]
        by_cases hq : q x = true
        · rw [List.filter_cons_of_pos hq]
          exact le_trans ih' (by simp)
        · rw [List.filter_cons_of_neg (by simpa using hq)]
          exact ih'

/-- C8: coverage returned by `assess_stage` is the answered-question count
over the total question count (the config has at least one question), lies in
[0, 1], is 0 on an all-null map, 1 on a fully answered map, and does not
decrease when further non-null signals are added. -/
theorem claim_c8 (cfg : Config) (sig sig' : SignalMap)
    (hq : cfg.questions ≠ [])
    (hext : ∀ k v, sig k = some v → sig' k = some v) :
    (assess_stage cfg sig).coverage =
        ((cfg.questions.filter (fun q => (sig q.id).isSome)).length : ℚ) /
          (cfg.questions.length : ℚ) ∧
    0 ≤ (assess_stage cfg sig).coverage ∧
    (assess_stage cfg sig).coverage ≤ 1 ∧
    ((∀ q ∈ cfg.questions, sig q.id = Option.none) →
        (assess_stage cfg sig).coverage = 0) ∧
    ((∀ q ∈ cfg.questions, (sig q.id).isSome) →
        (assess_stage cfg sig).coverage = 1) ∧
    (assess_stage cfg sig).coverage ≤ (assess_stage cfg sig').coverage := by
  have hcov : ∀ τ : SignalMap, (assess_stage cfg τ).coverage = coverage cfg τ :=
    fun τ => rfl
  have hlen : 0 < cfg.questions.length := List.length_pos.mpr hq
  have hmax : max cfg.questions.length 1 = cfg.questions.length :=
    Nat.max_eq_left hlen
  have hden : (0 : ℚ) < ((max cfg.questions.length 1 : Nat) : ℚ) := by
    have : 0 < max cfg.questions.length 1 := lt_of_lt_of_le Nat.one_pos
      (Nat.le_max_right _ _)
    exact_mod_cast this
  have heq : coverage cfg sig =
      ((cfg.questions.filter (fun q => (sig q.id).isSome)).length : ℚ) /
        (cfg.questions.length : ℚ) := by
    rw [coverage, hmax]
  refine ⟨by rw [hcov, heq], ?_, ?_, ?_, ?_, ?_⟩
  · rw [hcov, coverage]
    exact div_nonneg (Nat.cast_nonneg _) (Nat.cast_nonneg _)
  · rw [hcov, heq, div_le_one (by exact_mod_cast hlen)]
    exact_mod_cast List.length_filter_le _ _
  · intro hnone
    rw [hcov, heq]
    have : cfg.questions.filter (fun q => (sig q.id).isSome) = [] := by
      rw [List.filter_eq_nil_iff]
      intro a ha
      rw [hnone a ha]
      simp
    rw [this]
    simp
  · intro hsome
    rw [hcov, heq]
    have : cfg.questions.filter (fun q => (sig q.id).isSome) = cfg.questions :=
      List.filter_eq_self.mpr (fun a ha => hsome a ha)
    rw [this, div_self (by exact_mod_cast (Nat.pos_iff_ne_zero.mp hlen))]
  · rw [hcov, hcov, coverage, coverage, div_le_div_iff_of_pos_right hden]
    have := length_filter_mono cfg.questions
      (fun q => (sig q.id).isSome) (fun q => (sig' q.id).isSome)
      (fun q _ hp => by
        obtain ⟨v, hv⟩ := Option.isSome_iff_exists.mp hp
        have h2 := hext q.id v hv
        simp [h2])
    exact_mod_cast this

/-- Witness for C8 at the default config: the all-null map and the map
answering only `Q11`. -/
theorem claim_c8_witness :
    defaultConfig.questions ≠ [] ∧
    ((assess_stage defaultConfig (fun _ => Option.none)).coverage =
        ((defaultConfig.questions.filter
            (fun q => ((fun _ => (Option.none : Option Int)) q.id).isSome)).length : ℚ) /
          (defaultConfig.questions.length : ℚ) ∧
    0 ≤ (assess_stage defaultConfig (fun _ => Option.none)).coverage ∧
    (assess_stage defaultConfig (fun _ => Option.none)).coverage ≤ 1 ∧
    ((∀ q ∈ defaultConfig.questions,
        (fun _ => (Option.none : Option Int)) q.id = Option.none) →
        (assess_stage defaultConfig (fun _ => Option.none)).coverage = 0) ∧
    ((∀ q ∈ defaultConfig.questions,
        ((fun _ => (Option.none : Option Int)) q.id).isSome) →
        (assess_stage defaultConfig (fun _ => Option.none)).coverage = 1) ∧
    (assess_stage defaultConfig (fun _ => Option.none)).coverage ≤
      (assess_stage defaultConfig
        (fun k => if k = "Q11" then some 2 else Option.none)).coverage) :=
  ⟨by decide,
    claim_c8 defaultConfig (fun _ => Option.none)
      (fun k => if k = "Q11" then some 2 else Option.none)
      (by decide)
      (fun k v hv => by simp at hv)⟩

/-- C10: the scorer's full output depends only on the signal entries at the
declared question ids; maps agreeing there (whatever they hold at stale or
unknown ids) produce identical probabilities, label, scores and coverage. -/
theorem claim_c10 (cfg : Config) (sig sig' : SignalMap)
    (hagree : ∀ q ∈ cfg.questions, sig q.id = sig' q.id) :
    assess_stage cfg sig = assess_stage cfg sig' := by
  have hraw : rawScore cfg sig = rawScore cfg sig' := by
    funext st
    rw [rawScore_eq_sum, rawScore_eq_sum]
    congr 1
    refine List.map_congr_left (fun q hq => ?_)
    rw [hagree q hq]
  have hcl : clampedScore cfg sig = clampedScore cfg sig' := by
    funext st
    rw [clampedScore, clampedScore, hraw]
  have htot : totalClamped cfg sig = totalClamped cfg sig' := by
    rw [totalClamped, totalClamped, hcl]
  have hprob : prob cfg sig = prob cfg sig' := by
    funext st
    rw [prob, prob, hcl, htot]
  have hcov : coverage cfg sig = coverage cfg sig' := by
    rw [coverage, coverage]
    congr 3
    refine List.filter_congr (fun q hq => ?_)
    rw [hagree q hq]
  have hdom : dominance cfg sig = dominance cfg sig' := by
    unfold dominance
    simp only [hprob]
  have hcs : conf_score cfg sig = conf_score cfg sig' := by
    rw [conf_score, conf_score, hdom, hcov]
  simp only [assess_stage, hprob, hraw, hcs, hcov]

/-- Witness for C10: the default config with the `Q11` map and the same map
polluted by an entry under the undeclared id `ZZ`. -/
theorem claim_c10_witness :
    (∀ q ∈ defaultConfig.questions,
        (fun k => if k = "Q11" then some 2 else Option.none) q.id =
          (fun k => if k = "Q11" then some 2
            else if k = "ZZ" then some 1 else Option.none) q.id) ∧
    assess_stage defaultConfig
        (fun k => if k = "Q11" then some 2 else Option.none) =
      assess_stage defaultConfig
        (fun k => if k = "Q11" then some 2
          else if k = "ZZ" then some 1 else Option.none) :=
  ⟨by decide,
    claim_c10 defaultConfig
      (fun k => if k = "Q11" then some 2 else Option.none)
      (fun k => if k = "Q11" then some 2
        else if k = "ZZ" then some 1 else Option.none)
      (by decide)⟩

/-- C3 (amended): the normalizer emits exactly one entry per declared
question, in declaration order; a declared question's entry holds integer
`iv` exactly when Python's `int()` conversion of the incoming value succeeds
with result `iv` (floats truncate toward zero) and `iv` lies on the answer
scale; in every other case the entry is null; ids not declared in the config
never appear in the output. -/
theorem claim_c3_amended (cfg : Config) (inc : String → PyVal)
    (hids : (cfg.questions.map Question.id).Nodup) :
    ((normalize_signals cfg inc).map Prod.fst =
        cfg.questions.map Question.id) ∧
    (∀ q ∈ cfg.questions, ∀ iv : Int,
        alookup (normalize_signals cfg inc) q.id = some (some iv) ↔
          pyToInt (inc q.id) = some iv ∧ iv ∈ cfg.scale) ∧
    (∀ q ∈ cfg.questions,
        (∀ iv : Int, ¬ (pyToInt (inc q.id) = some iv ∧ iv ∈ cfg.scale)) →
        alookup (normalize_signals cfg inc) q.id = some Option.none) ∧
    (∀ k, (∀ q ∈ cfg.questions, q.id ≠ k) →
        alookup (normalize_signals cfg inc) k = Option.none) := by
  have hchar : ∀ k, alookup (normalize_signals cfg inc) k =
      if ∃ q ∈ cfg.questions, q.id = k then some (writeVal cfg inc k)
      else Option.none := by
    intro k
    have h := alookup_normFold cfg inc cfg.questions [] k
    rw [normalize_signals, h]
    rfl
  refine ⟨?_, ?_, ?_, ?_⟩
  · have h := keys_normFold cfg inc cfg.questions [] (by simpa using hids)
    rw [normalize_signals, h]
    rfl
  · intro q hq iv
    rw [hchar q.id, if_pos ⟨q, hq, rfl⟩]
    unfold writeVal
    cases hp : pyToInt (inc q.id) with
    | none =>
        simp only [hp]
        exact ⟨fun h => Option.noConfusion (Option.some.inj h),
          fun h => Option.noConfusion h.1⟩
    | some j =>
        simp only [hp]
        by_cases hm : j ∈ cfg.scale
        · rw [if_pos hm]
          constructor
          · intro h
            obtain h' := Option.some.inj (Option.some.inj h)
            exact ⟨by rw [h'], h' ▸ hm⟩
          · intro ⟨h1, _⟩
            rw [Option.some.inj h1]
        · rw [if_neg hm]
          constructor
          · intro h
            exact Option.noConfusion (Option.some.inj h)
          · intro ⟨h1, h2⟩
            exact absurd ((Option.some.inj h1) ▸ h2) hm
  · intro q hq hnone
    rw [hchar q.id, if_pos ⟨q, hq, rfl⟩]
    unfold writeVal
    cases hp : pyToInt (inc q.id) with
    | none => rfl
    | some j =>
        show some (if j ∈ cfg.scale then some j else Option.none) =
          some Option.none
        rw [if_neg (fun hm => hnone j ⟨hp, hm⟩)]
  · intro k hk
    rw [hchar k, if_neg ?_]
    rintro ⟨q, hq, hid⟩
    exact hk q hq hid

/-- Witness for C3 (amended) at the default config and the payload holding
an integer 2 under `Q11`. -/
theorem claim_c3_amended_witness :
    (defaultConfig.questions.map Question.id).Nodup ∧
    (((normalize_signals defaultConfig
        (fun k => if k = "Q11" then PyVal.int 2 else PyVal.none)).map
          Prod.fst = defaultConfig.questions.map Question.id) ∧
    (∀ q ∈ defaultConfig.questions, ∀ iv : Int,
        alookup (normalize_signals defaultConfig
            (fun k => if k = "Q11" then PyVal.int 2 else PyVal.none)) q.id =
          some (some iv) ↔
          pyToInt ((fun k => if k = "Q11" then PyVal.int 2 else PyVal.none)
            q.id) = some iv ∧ iv ∈ defaultConfig.scale) ∧
    (∀ q ∈ defaultConfig.questions,
        (∀ iv : Int, ¬ (pyToInt
            ((fun k => if k = "Q11" then PyVal.int 2 else PyVal.none) q.id) =
              some iv ∧ iv ∈ defaultConfig.scale)) →
        alookup (normalize_signals defaultConfig
            (fun k => if k = "Q11" then PyVal.int 2 else PyVal.none)) q.id =
          some Option.none) ∧
    (∀ k, (∀ q ∈ defaultConfig.questions, q.id ≠ k) →
        alookup (normalize_signals defaultConfig
            (fun k => if k = "Q11" then PyVal.int 2 else PyVal.none)) k =
          Option.none)) :=
  ⟨by decide,
    claim_c3_amended defaultConfig
      (fun k => if k = "Q11" then PyVal.int 2 else PyVal.none) (by decide)⟩

/-- C3 counterexample to the claim as stated: the incoming float 1.5 does
not convert losslessly to an integer, yet the normalizer stores the
truncated integer 1 instead of null. -/
theorem claim_c3_counterexample :
    alookup (normalize_signals cfgC3 incC3) "Q1" = some (some 1) ∧
    incC3 "Q1" = PyVal.float (mkRat 3 2) ∧
    losslessInt (incC3 "Q1") = Option.none := by
  refine ⟨by decide, rfl, by decide⟩

/-- A value the updater actually writes always lies on the answer scale. -/
theorem writeVal_mem_scale {cfg : Config} {inc : String → PyVal} {k : String}
    {iv : Int} (h : writeVal cfg inc k = some iv) : iv ∈ cfg.scale := by
  unfold writeVal at h
  cases hp : pyToInt (inc k) with
  | none =>
      simp only [hp] at h
      exact Option.noConfusion h
  | some j =>
      simp only [hp] at h
      by_cases hm : j ∈ cfg.scale
      · rw [if_pos hm] at h
        rw [← Option.some.inj h]
        exact hm
      · rw [if_neg hm] at h
        exact Option.noConfusion h

/-- The merge loop preserves the all-values-on-scale invariant. -/
theorem writeFold_scale_invariant (cfg : Config) (inc : String → PyVal)
    (qs : List Question) (l : List (String × Int))
    (hl : ∀ p ∈ l, p.2 ∈ cfg.scale) :
    ∀ p ∈ qs.foldl (fun acc q =>
        match writeVal cfg inc q.id with
        | some iv => setKey acc q.id iv
        | Option.none => acc) l, p.2 ∈ cfg.scale := by
  induction qs generalizing l with
  | nil => exact hl
  | cons q rest ih =>
      rw [List.foldl_cons]
      refine ih _ ?_
      cases hw : writeVal cfg inc q.id with
      | none =>
          simp only [hw]
          exact hl
      | some iv =>
          simp only [hw]
          intro p hp
          rcases mem_setKey hp with rfl | hpl
          · exact writeVal_mem_scale hw
          · exact hl p hpl

/-- Lookup characterization of the merge loop over the declared questions. -/
theorem alookup_writeLoop (cfg : Config) (inc : String → PyVal)
    (l : List (String × Int)) (k : String) :
    alookup (writeLoop cfg inc l) k =
      if (∃ q ∈ cfg.questions, q.id = k) ∧ (writeVal cfg inc k).isSome
      then writeVal cfg inc k
      else alookup l k :=
  alookup_writeFold cfg inc cfg.questions l k

/-- On a payload wrapping a normalized signal map (all values on the scale),
the value the updater writes at any key is exactly the map's entry. -/
theorem writeVal_pyOfSignals (cfg : Config) (nsig : SignalMap)
    (hscale : ∀ k v, nsig k = some v → v ∈ cfg.scale) :
    writeVal cfg (pyOfSignals nsig) = nsig := by
  funext k
  cases hv : nsig k with
  | none => simp [writeVal, pyOfSignals, hv, pyToInt]
  | some v => simp [writeVal, pyOfSignals, hv, pyToInt, hscale k v hv]

/-- C9: `update_user_state` preserves the invariant that every stored signal
value lies on the config's answer scale, for an arbitrary (not yet
normalized) incoming payload: the updater itself discards values that do not
convert to an integer on the scale. -/
theorem claim_c9 (cfg : Config) (st : UserState) (inc : String → PyVal)
    (now : String) (hst : ∀ p ∈ st.signals, p.2 ∈ cfg.scale) :
    ∀ p ∈ (update_user_state cfg (some st) inc now).signals,
      p.2 ∈ cfg.scale := by
  have hsig : (update_user_state cfg (some st) inc now).signals =
      writeLoop cfg inc st.signals := rfl
  rw [hsig, writeLoop]
  exact writeFold_scale_invariant cfg inc cfg.questions st.signals hst

/-- Witness for C9: the default config, a state holding `Q1 = -2`, and a
payload offering an out-of-scale value 7 for `Q2`, a float 1.25 for `Q3`
and a non-numeric value for `Q4`. -/
theorem claim_c9_witness :
    (∀ p ∈ ({ signals := [("Q1", -2)], history := [] } : UserState).signals,
        p.2 ∈ defaultConfig.scale) ∧
    ∀ p ∈ (update_user_state defaultConfig
        (some { signals := [("Q1", -2)], history := [] })
        (fun k => if k = "Q2" then PyVal.int 7
          else if k = "Q3" then PyVal.float (mkRat 5 4)
          else if k = "Q4" then PyVal.other else PyVal.none)
        "t").signals, p.2 ∈ defaultConfig.scale :=
  ⟨by decide,
    claim_c9 defaultConfig { signals := [("Q1", -2)], history := [] }
      (fun k => if k = "Q2" then PyVal.int 7
        else if k = "Q3" then PyVal.float (mkRat 5 4)
        else if k = "Q4" then PyVal.other else PyVal.none)
      "t" (by decide)⟩

/-- C4: merging a normalized signal map overwrites exactly the declared
questions carrying a non-null value (last write wins) and leaves every other
stored signal unchanged; it appends exactly one snapshot to the history,
keeping the existing entries; and repeating the same merge in a second turn
leaves the signal map unchanged while the history grows to two new
entries. -/
theorem claim_c4 (cfg : Config) (ust : Option UserState) (nsig : SignalMap)
    (now1 now2 : String)
    (hscale : ∀ k v, nsig k = some v → v ∈ cfg.scale) :
    (∀ k, alookup
        (update_user_state cfg ust (pyOfSignals nsig) now1).signals k =
      if (∃ q ∈ cfg.questions, q.id = k) ∧ (nsig k).isSome
      then nsig k
      else alookup (ust.getD { signals := [], history := [] }).signals k) ∧
    (∃ snap, (update_user_state cfg ust (pyOfSignals nsig) now1).history =
        (ust.getD { signals := [], history := [] }).history ++ [snap]) ∧
    (update_user_state cfg
        (some (update_user_state cfg ust (pyOfSignals nsig) now1))
        (pyOfSignals nsig) now2).signals =
      (update_user_state cfg ust (pyOfSignals nsig) now1).signals ∧
    (update_user_state cfg
        (some (update_user_state cfg ust (pyOfSignals nsig) now1))
        (pyOfSignals nsig) now2).history.length =
      (ust.getD { signals := [], history := [] }).history.length + 2 := by
  have hwv := writeVal_pyOfSignals cfg nsig hscale
  have hsig1 : (update_user_state cfg ust (pyOfSignals nsig) now1).signals =
      writeLoop cfg (pyOfSignals nsig)
        (ust.getD { signals := [], history := [] }).signals := rfl
  have hchar : ∀ k, alookup
      (update_user_state cfg ust (pyOfSignals nsig) now1).signals k =
      if (∃ q ∈ cfg.questions, q.id = k) ∧ (nsig k).isSome
      then nsig k
      else alookup (ust.getD { signals := [], history := [] }).signals k := by
    intro k
    rw [hsig1, alookup_writeLoop, hwv]
  refine ⟨hchar, ⟨_, rfl⟩, ?_, ?_⟩
  · have hsig2 : (update_user_state cfg
        (some (update_user_state cfg ust (pyOfSignals nsig) now1))
        (pyOfSignals nsig) now2).signals =
        writeLoop cfg (pyOfSignals nsig)
          (update_user_state cfg ust (pyOfSignals nsig) now1).signals := rfl
    rw [hsig2, writeLoop]
    refine foldl_eq_self _ _ _ (fun q hq => ?_)
    cases hv : nsig q.id with
    | none =>
        have hw : writeVal cfg (pyOfSignals nsig) q.id = Option.none := by
          rw [hwv, hv]
        simp only [hw]
    | some v =>
        have hw : writeVal cfg (pyOfSignals nsig) q.id = some v := by
          rw [hwv, hv]
        simp only [hw]
        refine setKey_self _ _ _ ?_
        rw [hchar q.id, if_pos ⟨⟨q, hq, rfl⟩, by rw [hv]; rfl⟩, hv]
  · have hh2 : (update_user_state cfg
        (some (update_user_state cfg ust (pyOfSignals nsig) now1))
        (pyOfSignals nsig) now2).history =
        (update_user_state cfg ust (pyOfSignals nsig) now1).history ++
          [_] := rfl
    have hh1 : (update_user_state cfg ust (pyOfSignals nsig) now1).history =
        (ust.getD { signals := [], history := [] }).history ++ [_] := rfl
    rw [hh2, hh1]
    simp

/-- Witness for C4: the default config, an absent user state, and the
normalized map answering only `Q11`. -/
theorem claim_c4_witness :
    (∀ k v, (fun j => if j = "Q11" then some 2 else Option.none) k = some v →
        v ∈ defaultConfig.scale) ∧
    ((∀ k, alookup
        (update_user_state defaultConfig Option.none
          (pyOfSignals (fun j => if j = "Q11" then some 2 else Option.none))
          "t1").signals k =
      if (∃ q ∈ defaultConfig.questions, q.id = k) ∧
          (if k = "Q11" then some 2 else (Option.none : Option Int)).isSome
      then (if k = "Q11" then some 2 else (Option.none : Option Int))
      else alookup
        ((Option.none : Option UserState).getD
          { signals := [], history := [] }).signals k) ∧
    (∃ snap, (update_user_state defaultConfig Option.none
        (pyOfSignals (fun j => if j = "Q11" then some 2 else Option.none))
        "t1").history =
        ((Option.none : Option UserState).getD
          { signals := [], history := [] }).history ++ [snap]) ∧
    (update_user_state defaultConfig
        (some (update_user_state defaultConfig Option.none
          (pyOfSignals (fun j => if j = "Q11" then some 2 else Option.none))
          "t1"))
        (pyOfSignals (fun j => if j = "Q11" then some 2 else Option.none))
        "t2").signals =
      (update_user_state defaultConfig Option.none
        (pyOfSignals (fun j => if j = "Q11" then some 2 else Option.none))
        "t1").signals ∧
    (update_user_state defaultConfig
        (some (update_user_state defaultConfig Option.none
          (pyOfSignals (fun j => if j = "Q11" then some 2 else Option.none))
          "t1"))
        (pyOfSignals (fun j => if j = "Q11" then some 2 else Option.none))
        "t2").history.length =
      ((Option.none : Option UserState).getD
        { signals := [], history := [] }).history.length + 2) :=
  ⟨fun k v hv => by
      by_cases hk : k = "Q11"
      · simp only [hk, if_pos rfl] at hv
        rw [← Option.some.inj hv]
        decide
      · simp [hk] at hv,
    claim_c4 defaultConfig Option.none
      (fun j => if j = "Q11" then some 2 else Option.none) "t1" "t2"
      (fun k v hv => by
        by_cases hk : k = "Q11"
        · simp only [hk, if_pos rfl] at hv
          rw [← Option.some.inj hv]
          decide
        · simp [hk] at hv)⟩

/-- Lookup in an association list built over a key list always succeeds at
members, returning the generating function's value. -/
theorem alookup_map_self {β : Type} (l : List String) (f : String → β)
    {k : String} (hk : k ∈ l) :
    alookup (l.map (fun s => (s, f s))) k = some (f k) := by
  induction l with
  | nil => simp at hk
  | cons s rest ih =>
      rw [List.map_cons, alookup]
      by_cases h : k = s
      · rw [if_pos h, h]
      · rw [if_neg h]
        rcases List.mem_cons.mp hk with h' | h'
        · exact absurd h' h
        · exact ih h'

/-- A single question loads with an error exactly when one of its three
required fields is missing. -/
theorem loadQuestion_error_iff (stages : List String) (rq : RawQuestion) :
    (∃ e, loadQuestion stages rq = Except.error e) ↔
      rq.id = Option.none ∨ rq.text = Option.none ∨
        rq.weights = Option.none := by
  cases hi : rq.id <;> cases ht : rq.text <;> cases hw : rq.weights <;>
    simp [loadQuestion, hi, ht, hw] <;>
    exact ⟨ConfigError.mk, trivial⟩

/-- The question list loads with an error exactly when some question lacks a
required field. -/
theorem loadQuestions_error_iff (stages : List String)
    (rqs : List RawQuestion) :
    (∃ e, loadQuestions stages rqs = Except.error e) ↔
      ∃ rq ∈ rqs, rq.id = Option.none ∨ rq.text = Option.none ∨
        rq.weights = Option.none := by
  induction rqs with
  | nil => simp [loadQuestions]
  | cons rq rest ih =>
      cases hq : loadQuestion stages rq with
      | error e =>
          have hbad : rq.id = Option.none ∨ rq.text = Option.none ∨
              rq.weights = Option.none :=
            (loadQuestion_error_iff stages rq).mp ⟨e, hq⟩
          have hval : loadQuestions stages (rq :: rest) = Except.error e := by
            simp only [loadQuestions, hq]
          constructor
          · intro _
            exact ⟨rq, List.mem_cons_self _ _, hbad⟩
          · intro _
            exact ⟨e, hval⟩
      | ok q =>
          have hgood : ¬ (rq.id = Option.none ∨ rq.text = Option.none ∨
              rq.weights = Option.none) := by
            rw [← loadQuestion_error_iff stages rq]
            rintro ⟨e, he⟩
            rw [hq] at he
            exact Except.noConfusion he
          cases hr : loadQuestions stages rest with
          | error e =>
              have hval : loadQuestions stages (rq :: rest) =
                  Except.error e := by
                simp only [loadQuestions, hq, hr]
              have hbadr := ih.mp ⟨e, hr⟩
              constructor
              · intro _
                obtain ⟨rq', hm, hb⟩ := hbadr
                exact ⟨rq', List.mem_cons_of_mem _ hm, hb⟩
              · intro _
                exact ⟨e, hval⟩
          | ok qs =>
              have hval : loadQuestions stages (rq :: rest) =
                  Except.ok (q :: qs) := by
                simp only [loadQuestions, hq, hr]
              constructor
              · rintro ⟨e, he⟩
                rw [hval] at he
                exact Except.noConfusion he
              · rintro ⟨rq', hm, hb⟩
                rcases List.mem_cons.mp hm with rfl | hm'
                · exact absurd hb hgood
                · obtain ⟨e, he⟩ := ih.mpr ⟨rq', hm', hb⟩
                  rw [hr] at he
                  exact Except.noConfusion he

/-- Every question in a successfully loaded list has its weight dict rebuilt
over the declared stages from its raw weights (missing stages filled with
0). -/
theorem loadQuestions_ok_mem (stages : List String)
    (rqs : List RawQuestion) (qs : List Question)
    (h : loadQuestions stages rqs = Except.ok qs) :
    ∀ q ∈ qs, ∃ w, q.weights =
      stages.map (fun s => (s, (alookup w s).getD 0)) := by
  induction rqs generalizing qs with
  | nil =>
      simp only [loadQuestions] at h
      rw [← Except.ok.inj h]
      intro q hq
      exact absurd hq (List.not_mem_nil q)
  | cons rq rest ih =>
      cases hq : loadQuestion stages rq with
      | error e =>
          rw [loadQuestions, hq] at h
          exact Except.noConfusion h
      | ok q0 =>
          cases hr : loadQuestions stages rest with
          | error e =>
              have hval : loadQuestions stages (rq :: rest) =
                  Except.error e := by
                simp only [loadQuestions, hq, hr]
              rw [hval] at h
              exact Except.noConfusion h
          | ok qs' =>
              have hval : loadQuestions stages (rq :: rest) =
                  Except.ok (q0 :: qs') := by
                simp only [loadQuestions, hq, hr]
              rw [hval] at h
              obtain rfl := Except.ok.inj h
              intro q hqmem
              rcases List.mem_cons.mp hqmem with rfl | hm
              · rcases hi : rq.id with _ | i <;>
                  rcases ht : rq.text with _ | t <;>
                  rcases hw : rq.weights with _ | w <;>
                  simp only [loadQuestion, hi, ht, hw] at hq <;>
                  try exact Except.noConfusion hq
                obtain rfl := Except.ok.inj hq
                exact ⟨w, rfl⟩
              · exact ih qs' hr q hm

/-- Successful loading relates raw and loaded questions pointwise: each
loaded weight dict is the raw one completed with 0 at missing stages. -/
theorem loadQuestions_ok_forall2 (stages : List String)
    (rqs : List RawQuestion) (qs : List Question)
    (h : loadQuestions stages rqs = Except.ok qs) :
    List.Forall₂ (fun (rq : RawQuestion) (q : Question) =>
      ∃ w, rq.weights = some w ∧
        q.weights = stages.map (fun s => (s, (alookup w s).getD 0))) rqs qs := by
  induction rqs generalizing qs with
  | nil =>
      simp only [loadQuestions] at h
      rw [← Except.ok.inj h]
      exact List.Forall₂.nil
  | cons rq rest ih =>
      cases hq : loadQuestion stages rq with
      | error e =>
          rw [loadQuestions, hq] at h
          exact Except.noConfusion h
      | ok q0 =>
          cases hr : loadQuestions stages rest with
          | error e =>
              have hval : loadQuestions stages (rq :: rest) =
                  Except.error e := by
                simp only [loadQuestions, hq, hr]
              rw [hval] at h
              exact Except.noConfusion h
          | ok qs' =>
              have hval : loadQuestions stages (rq :: rest) =
                  Except.ok (q0 :: qs') := by
                simp only [loadQuestions, hq, hr]
              rw [hval] at h
              obtain rfl := Except.ok.inj h
              refine List.Forall₂.cons ?_ (ih qs' hr)
              rcases hi : rq.id with _ | i <;>
                rcases ht : rq.text with _ | t <;>
                rcases hw : rq.weights with _ | w <;>
                simp only [loadQuestion, hi, ht, hw] at hq <;>
                try exact Except.noConfusion hq
              obtain rfl := Except.ok.inj hq
              exact ⟨w, rfl, rfl⟩

/-- C5: the loader fails (with the spec's `ConfigError`) exactly when
`stages` or `questions` is missing or some question lacks `id`, `text` or
`weights`; on success the declared stages are taken from the document, every
loaded question has a weight entry for every declared stage, and that entry
is the raw weight when present and 0.0 otherwise. -/
theorem claim_c5 (raw : RawConfig) :
    ((∃ e, load_assessment_config raw = Except.error e) ↔
      raw.stages = Option.none ∨ raw.questions = Option.none ∨
        ∃ rq ∈ raw.questions.getD [], rq.id = Option.none ∨
          rq.text = Option.none ∨ rq.weights = Option.none) ∧
    ∀ cfg, load_assessment_config raw = Except.ok cfg →
      cfg.stages = raw.stages.getD [] ∧
      (∀ q ∈ cfg.questions, ∀ s ∈ cfg.stages,
        (alookup q.weights s).isSome) ∧
      List.Forall₂ (fun (rq : RawQuestion) (q : Question) =>
          ∃ w, rq.weights = some w ∧ ∀ s ∈ cfg.stages,
            alookup q.weights s = some ((alookup w s).getD 0))
        (raw.questions.getD []) cfg.questions := by
  cases hst : raw.stages with
  | none =>
      have hval : load_assessment_config raw = Except.error ConfigError.mk := by
        simp only [load_assessment_config, hst]
      refine ⟨⟨fun _ => Or.inl rfl, fun _ => ⟨ConfigError.mk, hval⟩⟩, ?_⟩
      intro cfg hcfg
      rw [hval] at hcfg
      exact Except.noConfusion hcfg
  | some stages =>
      cases hqs : raw.questions with
      | none =>
          have hval : load_assessment_config raw =
              Except.error ConfigError.mk := by
            simp only [load_assessment_config, hst, hqs]
          refine ⟨⟨fun _ => Or.inr (Or.inl rfl),
            fun _ => ⟨ConfigError.mk, hval⟩⟩, ?_⟩
          intro cfg hcfg
          rw [hval] at hcfg
          exact Except.noConfusion hcfg
      | some rqs =>
          cases hl : loadQuestions stages rqs with
          | error e =>
              have hval : load_assessment_config raw = Except.error e := by
                simp only [load_assessment_config, hst, hqs, hl]
              have hbad := (loadQuestions_error_iff stages rqs).mp ⟨e, hl⟩
              constructor
              · constructor
                · intro _
                  exact Or.inr (Or.inr hbad)
                · intro _
                  exact ⟨e, hval⟩
              · intro cfg hcfg
                rw [hval] at hcfg
                exact Except.noConfusion hcfg
          | ok qs =>
              have hval : load_assessment_config raw = Except.ok
                  { version := raw.version, stages := stages,
                    answer_scale := raw.answer_scale, questions := qs } := by
                simp only [load_assessment_config, hst, hqs, hl]
              constructor
              · constructor
                · rintro ⟨e, he⟩
                  rw [hval] at he
                  exact Except.noConfusion he
                · rintro (h | h | h)
                  · exact Option.noConfusion h
                  · exact Option.noConfusion h
                  · obtain ⟨e, he⟩ :=
                      (loadQuestions_error_iff stages rqs).mpr h
                    rw [hl] at he
                    exact Except.noConfusion he
              · intro cfg hcfg
                rw [hval] at hcfg
                obtain rfl := (Except.ok.inj hcfg).symm
                refine ⟨rfl, ?_, ?_⟩
                · intro q hqmem s hs
                  obtain ⟨w, hweq⟩ :=
                    loadQuestions_ok_mem stages rqs qs hl q hqmem
                  rw [hweq, alookup_map_self _ _ hs]
                  rfl
                · refine List.Forall₂.imp ?_
                    (loadQuestions_ok_forall2 stages rqs qs hl)
                  rintro rq q ⟨w, hw, hweq⟩
                  refine ⟨w, hw, fun s hs => ?_⟩
                  rw [hweq, alookup_map_self _ _ hs]

/-- Witness for C5: the default raw definition loads successfully into the
default config, with complete weight dicts. -/
theorem claim_c5_witness :
    load_assessment_config defaultRaw = Except.ok defaultConfig ∧
    (defaultConfig.stages = defaultRaw.stages.getD [] ∧
      (∀ q ∈ defaultConfig.questions, ∀ s ∈ defaultConfig.stages,
        (alookup q.weights s).isSome) ∧
      List.Forall₂ (fun (rq : RawQuestion) (q : Question) =>
          ∃ w, rq.weights = some w ∧ ∀ s ∈ defaultConfig.stages,
            alookup q.weights s = some ((alookup w s).getD 0))
        (defaultRaw.questions.getD []) defaultConfig.questions) :=
  ⟨rfl, (claim_c5 defaultRaw).2 defaultConfig rfl⟩

end Journey
